import Mathlib

/-!
Verification of the Champions League results parser (`src/data/cl/parse_cl.py`).

The Python core `parse_file(season, text)` splits `text` on newlines and scans
the lines in order, keeping a current resolved date.  Lines are classified by
two regular expressions, `DATE_WITH_YEAR` and `MATCH_PATTERN2`; the match
pattern is only consulted when the date pattern does not match.  Below the two
regular expressions are compiled by hand into deterministic Lean functions on
`List Char`.  Determinism of the compilation is justified case by case: at
every greedy repetition the character class of the repetition is either
disjoint from the class of the following token (so maximal munch is forced),
or the following lazy group can absorb any characters given back (so maximal
munch is complete and preferred); the lazy groups `.*?` are compiled as a
left-to-right scan that tries to close the group at the earliest position
whose full continuation succeeds, exactly the order the backtracking engine
explores.

The source compiles its patterns without `re.ASCII`, so `\s` is Python's
full Unicode whitespace set (the 29 code points accepted by
`Py_UNICODE_ISSPACE`, which is also exactly the set `str.strip()` removes);
`isPySpace` below lists that set.  `\d` is modelled as the ASCII digits
`0`-`9`; Python's `\d` additionally matches non-ASCII decimal digits, which
no claim turns on.
-/

/-- The characters matched by Python's `\s` on a `str` pattern (no
`re.ASCII` flag), which is the same set `str.isspace()` accepts and
`str.strip()` removes: the 29 Unicode whitespace code points. -/
def isPySpace (c : Char) : Bool :=
  c = '\t' || c = '\n' || c = '\x0b' || c = '\x0c' || c = '\r' ||
  c = '\x1c' || c = '\x1d' || c = '\x1e' || c = '\x1f' || c = ' ' ||
  c = '\x85' || c = '\xa0' || c = '\u1680' ||
  c = '\u2000' || c = '\u2001' || c = '\u2002' || c = '\u2003' || c = '\u2004' ||
  c = '\u2005' || c = '\u2006' || c = '\u2007' || c = '\u2008' || c = '\u2009' ||
  c = '\u200a' || c = '\u2028' || c = '\u2029' || c = '\u202f' || c = '\u205f' ||
  c = '\u3000'

/-- The class `\d` on ASCII input. -/
def isDigitC (c : Char) : Bool :=
  '0' ≤ c && c ≤ '9'

/-- The class `[A-Z]`. -/
def isUpperC (c : Char) : Bool :=
  'A' ≤ c && c ≤ 'Z'

/-- The class `[a-z]`. -/
def isLowerC (c : Char) : Bool :=
  'a' ≤ c && c ≤ 'z'

/-- Numeric value of a decimal digit character (0 on non-digits, which are
excluded by `isDigitC` guards at every use). -/
def digitVal : Char → Nat
  | '0' => 0
  | '1' => 1
  | '2' => 2
  | '3' => 3
  | '4' => 4
  | '5' => 5
  | '6' => 6
  | '7' => 7
  | '8' => 8
  | '9' => 9
  | _ => 0

/-- Value of a nonempty run of decimal digits, as computed by Python's
`int` on a digit string (leading zeros allowed). -/
def natOfDigits (l : List Char) : Nat :=
  l.foldl (fun n c => 10 * n + digitVal c) 0

/-- Greedy `\s*`. -/
def dropSpaces (l : List Char) : List Char :=
  l.dropWhile isPySpace

/-- Greedy `\s+`: at least one whitespace character, maximal munch; returns
the remaining input. -/
def spacesPlus : List Char → Option (List Char)
  | [] => none
  | c :: r => if isPySpace c then some (dropSpaces r) else none

/-- Python `str.strip()` on ASCII input. -/
def stripChars (l : List Char) : List Char :=
  ((l.dropWhile isPySpace).reverse.dropWhile isPySpace).reverse

/-- Python `str.strip()` producing a `String`. -/
def stripStr (l : List Char) : String :=
  String.mk (stripChars l)

/-- Python `text.split(sep)` for a one-character separator. -/
def splitCh (sep : Char) : List Char → List (List Char)
  | [] => [[]]
  | c :: r =>
    if c = sep then [] :: splitCh sep r
    else
      match splitCh sep r with
      | [] => [[c]]
      | h :: t => (c :: h) :: t

/-- The weekday alternation `(?:Mon|Tue|Wed|Thu|Fri|Sat|Sun)`. -/
def isWeekday (a b c : Char) : Bool :=
  (a = 'M' && b = 'o' && c = 'n') || (a = 'T' && b = 'u' && c = 'e') ||
  (a = 'W' && b = 'e' && c = 'd') || (a = 'T' && b = 'h' && c = 'u') ||
  (a = 'F' && b = 'r' && c = 'i') || (a = 'S' && b = 'a' && c = 't') ||
  (a = 'S' && b = 'u' && c = 'n')

/-- The optional opening bracket `(?:\[)?` of `DATE_WITH_YEAR`. -/
def dropBracket (l : List Char) : List Char :=
  match l with
  | c :: r => if c = '[' then r else c :: r
  | [] => []

/-- The day field `(\d{1,2})` of `DATE_WITH_YEAR`, greedy, given that the
first digit has already been recognized; returns the day value and the
remaining input. -/
def dayNum (d1 : Char) : List Char → Nat × List Char
  | d2 :: r2 =>
    if isDigitC d2 then (10 * digitVal d1 + digitVal d2, r2) else (digitVal d1, d2 :: r2)
  | [] => (digitVal d1, [])

/-- The optional year group `(?:\s+(\d{4}))?` of `DATE_WITH_YEAR`: greedy
whitespace, then exactly four digits. -/
def optYear (l : List Char) : Option Nat :=
  match spacesPlus l with
  | none => none
  | some r =>
    match r with
    | a :: b :: c :: d :: _ =>
      if isDigitC a && isDigitC b && isDigitC c && isDigitC d then
        some (natOfDigits [a, b, c, d])
      else none
    | _ => none

/-- Compilation of `DATE_WITH_YEAR.match(line)`:
`^\s+(?:\[)?(?:Mon|Tue|Wed|Thu|Fri|Sat|Sun)\s+([A-Z][a-z]{2})/(\d{1,2})(?:\s+(\d{4}))?(?:\])?`.
Returns the three groups: month token, day number, optional explicit year.
The trailing `(?:\])?` binds no group and is not anchored, so it does not
affect the result. -/
def dateMatch (l : List Char) : Option (List Char × Nat × Option Nat) :=
  match spacesPlus l with
  | none => none
  | some s1 =>
    match dropBracket s1 with
    | a :: b :: c :: r =>
      if isWeekday a b c then
        match spacesPlus r with
        | none => none
        | some s3 =>
          match s3 with
          | m1 :: m2 :: m3 :: sl :: d1 :: rest =>
            if sl = '/' && isUpperC m1 && isLowerC m2 && isLowerC m3 && isDigitC d1 then
              some ([m1, m2, m3], (dayNum d1 rest).1, optYear (dayNum d1 rest).2)
            else none
          | _ => none
      else none
    | _ => none

/-- Reversed-prefix test for the country-code suffix `\([A-Z]{3}\)`: the
argument is the group content built in reverse, so the suffix appears at the
front, reversed. -/
def revCC : List Char → Bool
  | p1 :: a :: b :: c :: p2 :: _ =>
    p1 = ')' && p2 = '(' && isUpperC a && isUpperC b && isUpperC c
  | _ => false

/-- A list of characters ends with a parenthesized three-uppercase-letter
country code `([A-Z]{3})`. -/
def endsCC (l : List Char) : Bool :=
  revCC l.reverse

/-- Can `.*$` match this remaining input?  `.` excludes `'\n'` and `$`
matches at the end or just before a final `'\n'`. -/
def dotStarEnd (s : List Char) : Bool :=
  match s.dropWhile (fun c => !(c = '\n')) with
  | [] => true
  | _ :: r => r.isEmpty

/-- Can `\s+.*$` match this remaining input? -/
def spTail : List Char → Bool
  | [] => false
  | c :: r => isPySpace c && (dotStarEnd r || spTail r)

/-- Can the tail `(?:\s+.*)?$` of `MATCH_PATTERN2` match this remaining
input?  The group-absent branch is `$`: end of input or a single final
newline. -/
def tailOK : List Char → Bool
  | [] => true
  | c :: r => (c = '\n' && r.isEmpty) || spTail (c :: r)

/-- The score part `\s+(\d+)-(\d+)(?:\s+.*)?$` of `MATCH_PATTERN2`; both
`\d+` are forced to maximal munch by the following token. -/
def scoreTail (g1 g2 : List Char) (s : List Char) :
    Option (List Char × List Char × Nat × Nat) :=
  match spacesPlus s with
  | none => none
  | some r =>
    match r.takeWhile isDigitC with
    | [] => none
    | ds1 =>
      match r.dropWhile isDigitC with
      | c :: r2 =>
        if c = '-' then
          match r2.takeWhile isDigitC with
          | [] => none
          | ds2 =>
            if tailOK (r2.dropWhile isDigitC) then
              some (g1, g2, natOfDigits ds1, natOfDigits ds2)
            else none
        else none
      | [] => none

/-- The away-team group `(.*?\([A-Z]{3}\))` of `MATCH_PATTERN2`: lazy scan,
closing the group at the earliest country-code suffix whose continuation
(the score part) succeeds.  `racc` is the group content so far, reversed. -/
def go2 (g1 : List Char) : List Char → List Char → Option (List Char × List Char × Nat × Nat)
  | racc, [] => if revCC racc then scoreTail g1 racc.reverse [] else none
  | racc, c :: r =>
    match (if revCC racc then scoreTail g1 racc.reverse (c :: r) else none) with
    | some res => some res
    | none => if c = '\n' then none else go2 g1 (c :: racc) r

/-- The separator `\s+v\s+` of `MATCH_PATTERN2` followed by the away-team
group. -/
def afterTeam1 (g1 : List Char) (s : List Char) :
    Option (List Char × List Char × Nat × Nat) :=
  match spacesPlus s with
  | none => none
  | some r =>
    match r with
    | c :: r2 =>
      if c = 'v' then
        match spacesPlus r2 with
        | none => none
        | some r3 => go2 g1 [] r3
      else none
    | [] => none

/-- The home-team group `(.*?\([A-Z]{3}\))` of `MATCH_PATTERN2`: lazy scan
as in `go2`, with the rest of the pattern as continuation. -/
def go1 : List Char → List Char → Option (List Char × List Char × Nat × Nat)
  | racc, [] => if revCC racc then afterTeam1 racc.reverse [] else none
  | racc, c :: r =>
    match (if revCC racc then afterTeam1 racc.reverse (c :: r) else none) with
    | some res => some res
    | none => if c = '\n' then none else go1 (c :: racc) r

/-- The optional kickoff-time token `(?:\d{1,2}\.\d{2}\s+)?`.  The one- and
two-digit-hour shapes are mutually exclusive (the second character cannot be
both a digit and `'.'`), and when the token matches, committing to it is
complete: every country-code suffix position reachable without it is also
reachable with it, with an identical continuation. -/
def timeTok : List Char → Option (List Char)
  | a :: b :: rest =>
    if b = '.' then
      match rest with
      | c :: d :: r => if isDigitC a && isDigitC c && isDigitC d then spacesPlus r else none
      | _ => none
    else
      match rest with
      | p :: c :: d :: r =>
        if p = '.' && isDigitC a && isDigitC b && isDigitC c && isDigitC d then spacesPlus r
        else none
      | _ => none
  | _ => none

/-- Compilation of `MATCH_PATTERN2.match(line)`:
`^\s+(?:\d{1,2}\.\d{2}\s+)?(.*?\([A-Z]{3}\))\s+v\s+(.*?\([A-Z]{3}\))\s+(\d+)-(\d+)(?:\s+.*)?$`.
Returns the four groups: home team, away team, home goals, away goals. -/
def matchMP2 (l : List Char) : Option (List Char × List Char × Nat × Nat) :=
  match spacesPlus l with
  | none => none
  | some s1 =>
    match timeTok s1 with
    | some s2 => go1 [] s2
    | none => go1 [] s1

/-- The `MONTH_MAP` dictionary of the source, mapping a month token to its
zero-padded month-number string. -/
def MONTH_MAP (m : List Char) : Option String :=
  if m = ['J', 'a', 'n'] then some "01"
  else if m = ['F', 'e', 'b'] then some "02"
  else if m = ['M', 'a', 'r'] then some "03"
  else if m = ['A', 'p', 'r'] then some "04"
  else if m = ['M', 'a', 'y'] then some "05"
  else if m = ['J', 'u', 'n'] then some "06"
  else if m = ['J', 'u', 'l'] then some "07"
  else if m = ['A', 'u', 'g'] then some "08"
  else if m = ['S', 'e', 'p'] then some "09"
  else if m = ['O', 'c', 't'] then some "10"
  else if m = ['N', 'o', 'v'] then some "11"
  else if m = ['D', 'e', 'c'] then some "12"
  else none

/-- `int(month_num)` on a `MONTH_MAP` value. -/
def monthInt (mnum : String) : Nat :=
  natOfDigits mnum.data

/-- The year chosen by the source for a recognized date header:
`int(explicit_year)` when the header carries one, otherwise `base_year` for
months numbered 7 and up and `base_year + 1` below. -/
def inferYear (b : Int) (mnum : String) (yr : Option Nat) : Int :=
  match yr with
  | some ey => Int.ofNat ey
  | none => if 7 ≤ monthInt mnum then b else b + 1

/-- Python's `f"{day:02d}"`. -/
def pad2 (d : Nat) : String :=
  if d < 10 then "0" ++ toString d else toString d

/-- The date string `f"{current_year}-{month_num}-{day:02d}"` built by the
source. -/
def fmtDate (y : Int) (mnum : String) (d : Nat) : String :=
  toString y ++ "-" ++ mnum ++ "-" ++ pad2 d

/-- A row of the output, one entry of the source's `matches` list. -/
structure MatchRecord where
  season : String
  date : String
  home_team : String
  away_team : String
  home_goals : Nat
  away_goals : Nat
deriving DecidableEq

/-- The date and year a single line resolves to, when it is a recognized
date header: `DATE_WITH_YEAR` matches and the month token is in `MONTH_MAP`. -/
def resolveHeader (b : Int) (l : List Char) : Option (String × Int) :=
  match dateMatch l with
  | none => none
  | some (mon, d, yr) =>
    match MONTH_MAP mon with
    | none => none
    | some mnum => some (fmtDate (inferYear b mnum yr) mnum d, inferYear b mnum yr)

/-- The date a single line resolves to, when it is a recognized date header. -/
def headerDate (b : Int) (l : List Char) : Option String :=
  (resolveHeader b l).map Prod.fst

/-- One iteration of the source's line loop: the pair of state variables
`(current_date, current_year)` is updated by a date line (unless the month
token is unrecognized, where the line is skipped), and a match line emits a
record when a current date is present. -/
def lineStep (season : String) (b : Int) (st : Option String × Option Int)
    (l : List Char) : (Option String × Option Int) × Option MatchRecord :=
  match dateMatch l with
  | some (mon, d, yr) =>
    match MONTH_MAP mon with
    | none => (st, none)
    | some mnum =>
      ((some (fmtDate (inferYear b mnum yr) mnum d), some (inferYear b mnum yr)), none)
  | none =>
    match matchMP2 l with
    | some (h, a, hg, ag) =>
      match st.1 with
      | some d => (st, some ⟨season, d, stripStr h, stripStr a, hg, ag⟩)
      | none => (st, none)
    | none => (st, none)

/-- The source's line loop over a list of lines. -/
def parseLines (season : String) (b : Int) :
    (Option String × Option Int) → List (List Char) → List MatchRecord
  | _, [] => []
  | st, l :: ls =>
    (match (lineStep season b st l).2 with
     | some r => [r]
     | none => []) ++ parseLines season b (lineStep season b st l).1 ls

/-- Python `int()` digits with underscore separators: a nonempty digit run
in which a single underscore may stand between two digits. -/
def digitsU : Nat → List Char → Option Nat
  | acc, [] => some acc
  | acc, c :: r =>
    if isDigitC c then digitsU (10 * acc + digitVal c) r
    else if c = '_' then
      match r with
      | d :: r2 => if isDigitC d then digitsU (10 * acc + digitVal d) r2 else none
      | [] => none
    else none

/-- Python `int()` digit part: nonempty, starting with a digit. -/
def pyIntDigits : List Char → Option Nat
  | [] => none
  | c :: r => if isDigitC c then digitsU (digitVal c) r else none

/-- Python `int(s)` on a string: surrounding whitespace stripped, optional
sign, then digits; `none` models the `ValueError`. -/
def pyInt (l : List Char) : Option Int :=
  match stripChars l with
  | [] => none
  | c :: r =>
    if c = '+' then (pyIntDigits r).map Int.ofNat
    else if c = '-' then (pyIntDigits r).map (fun n => -(Int.ofNat n))
    else (pyIntDigits (c :: r)).map Int.ofNat

/-- `int(season.split('-')[0])`, the base year of a season; `none` models
the `ValueError`. -/
def seasonBase (season : String) : Option Int :=
  pyInt (season.data.takeWhile (fun c => !(c = '-')))

/-- The core `parse_file(season, text)`: `none` models the only possible
exception, `int` failing on the season's leading token; otherwise the list
of emitted records, in source-line order. -/
def parse_file (season : String) (text : String) : Option (List MatchRecord) :=
  match seasonBase season with
  | none => none
  | some b => some (parseLines season b (none, none) (splitCh '\n' text.data))

/-- State (the pair `(current_date, current_year)`) after processing a list
of lines. -/
def stateAfter (season : String) (b : Int) (st : Option String × Option Int)
    (ls : List (List Char)) : Option String × Option Int :=
  ls.foldl (fun s l => (lineStep season b s l).1) st

/-- The resolved date of the nearest preceding recognized date-header line
in a list of lines (the last line whose `headerDate` is set), `none` when
there is none. -/
def lastDate (b : Int) (ls : List (List Char)) : Option String :=
  ls.foldl (fun cur l => match headerDate b l with | some d => some d | none => cur) none

/-- The twelve month-number strings `MONTH_MAP` can produce. -/
def monthCodes : List String :=
  ["01", "02", "03", "04", "05", "06", "07", "08", "09", "10", "11", "12"]

/-- Number of days of a month in the Gregorian calendar (0 on month numbers
outside 1..12).  This is a specification-side definition, used only to compare
the emitted dates with the spec's notion of a valid calendar date. -/
def daysInMonth (y m : Nat) : Nat :=
  if m = 2 then (if (y % 4 = 0 && !(y % 100 = 0)) || y % 400 = 0 then 29 else 28)
  else if m = 4 || m = 6 || m = 9 || m = 11 then 30
  else if m = 1 || m = 3 || m = 5 || m = 7 || m = 8 || m = 10 || m = 12 then 31
  else 0

/-- Decomposition of a `Y-M-D` string into numeric components, a
specification-side definition used to state properties of the emitted date
strings. -/
def specDateParts (s : String) : Option (Nat × Nat × Nat) :=
  match splitCh '-' s.data with
  | [ys, ms, ds] =>
    if !ys.isEmpty && ys.all isDigitC && !ms.isEmpty && ms.all isDigitC &&
        !ds.isEmpty && ds.all isDigitC then
      some (natOfDigits ys, natOfDigits ms, natOfDigits ds)
    else none
  | _ => none

/-- A `Y-M-D` string denotes a valid calendar date: a specification-side
definition following the spec's words that every emitted date "is a valid
calendar date" (the day number exists in the resolved month and year). -/
def specValidCalendarDate (s : String) : Bool :=
  match specDateParts s with
  | some (y, m, d) => 1 ≤ m && m ≤ 12 && 1 ≤ d && d ≤ daysInMonth y m
  | none => false

/-- Chronological comparison of two `Y-M-D` strings: a specification-side
definition following the spec's words that emitted dates are "monotonic
non-decreasing ... in source line order". -/
def specDateLE (s t : String) : Bool :=
  match specDateParts s, specDateParts t with
  | some (y1, m1, d1), some (y2, m2, d2) =>
    y1 < y2 || (y1 = y2 && (m1 < m2 || (m1 = m2 && d1 ≤ d2)))
  | _, _ => false

/-! ### Case lemmas for the line classifier -/

theorem headerDate_of_nodm {b : Int} {l : List Char} (hdm : dateMatch l = none) :
    headerDate b l = none := by
  simp [headerDate, resolveHeader, hdm]

theorem headerDate_of_badmonth {b : Int} {l mon : List Char} {d : Nat} {yr : Option Nat}
    (hdm : dateMatch l = some (mon, d, yr)) (hmp : MONTH_MAP mon = none) :
    headerDate b l = none := by
  simp [headerDate, resolveHeader, hdm, hmp]

theorem headerDate_of_month {b : Int} {l mon : List Char} {d : Nat} {yr : Option Nat}
    {mnum : String} (hdm : dateMatch l = some (mon, d, yr))
    (hmp : MONTH_MAP mon = some mnum) :
    headerDate b l = some (fmtDate (inferYear b mnum yr) mnum d) := by
  simp [headerDate, resolveHeader, hdm, hmp]

theorem lineStep_date {season : String} {b : Int} {st : Option String × Option Int}
    {l mon : List Char} {d : Nat} {yr : Option Nat} {mnum : String}
    (hdm : dateMatch l = some (mon, d, yr)) (hmp : MONTH_MAP mon = some mnum) :
    lineStep season b st l =
      ((some (fmtDate (inferYear b mnum yr) mnum d), some (inferYear b mnum yr)), none) := by
  simp [lineStep, hdm, hmp]

theorem lineStep_badmonth {season : String} {b : Int} {st : Option String × Option Int}
    {l mon : List Char} {d : Nat} {yr : Option Nat}
    (hdm : dateMatch l = some (mon, d, yr)) (hmp : MONTH_MAP mon = none) :
    lineStep season b st l = (st, none) := by
  simp [lineStep, hdm, hmp]

theorem lineStep_emit {season : String} {b : Int} {st : Option String × Option Int}
    {l h a : List Char} {hg ag : Nat} {d : String}
    (hdm : dateMatch l = none) (hm2 : matchMP2 l = some (h, a, hg, ag))
    (hst : st.1 = some d) :
    lineStep season b st l = (st, some ⟨season, d, stripStr h, stripStr a, hg, ag⟩) := by
  simp [lineStep, hdm, hm2, hst]

theorem lineStep_nodate {season : String} {b : Int} {st : Option String × Option Int}
    {l h a : List Char} {hg ag : Nat}
    (hdm : dateMatch l = none) (hm2 : matchMP2 l = some (h, a, hg, ag))
    (hst : st.1 = none) :
    lineStep season b st l = (st, none) := by
  simp [lineStep, hdm, hm2, hst]

theorem lineStep_other {season : String} {b : Int} {st : Option String × Option Int}
    {l : List Char} (hdm : dateMatch l = none) (hm2 : matchMP2 l = none) :
    lineStep season b st l = (st, none) := by
  simp [lineStep, hdm, hm2]

/-! ### Shape lemmas for recognized headers -/

theorem digitVal_le (c : Char) : digitVal c ≤ 9 := by
  unfold digitVal
  split <;> omega

theorem dayNum_le (d1 : Char) (r : List Char) : (dayNum d1 r).1 ≤ 99 := by
  have h1 := digitVal_le d1
  unfold dayNum
  cases r with
  | nil => simp only; omega
  | cons d2 r2 =>
    have h2 := digitVal_le d2
    by_cases hd : isDigitC d2 = true
    · simp only [hd, if_true]
      omega
    · simp only [Bool.not_eq_true] at hd
      simp only [hd, Bool.false_eq_true, if_false]
      omega

theorem dateMatch_day_le {l mon : List Char} {yr : Option Nat} {day : Nat}
    (h : dateMatch l = some (mon, day, yr)) : day ≤ 99 := by
  unfold dateMatch at h
  cases h1 : spacesPlus l with
  | none => simp [h1] at h
  | some s1 =>
    simp only [h1] at h
    cases h2 : dropBracket s1 with
    | nil => simp [h2] at h
    | cons a t1 =>
      cases t1 with
      | nil => simp [h2] at h
      | cons a2 t2 =>
        cases t2 with
        | nil => simp [h2] at h
        | cons a3 r =>
          simp only [h2] at h
          by_cases hw : isWeekday a a2 a3 = true
          · simp only [hw, if_true] at h
            cases h3 : spacesPlus r with
            | none => simp [h3] at h
            | some s3 =>
              simp only [h3] at h
              cases s3 with
              | nil => simp at h
              | cons m1 u1 =>
                cases u1 with
                | nil => simp at h
                | cons m2 u2 =>
                  cases u2 with
                  | nil => simp at h
                  | cons m3 u3 =>
                    cases u3 with
                    | nil => simp at h
                    | cons sl u4 =>
                      cases u4 with
                      | nil => simp at h
                      | cons d1 rest =>
                        by_cases hc :
                            (sl = '/' && isUpperC m1 && isLowerC m2 && isLowerC m3 &&
                              isDigitC d1) = true
                        · simp only [hc, if_true, Option.some.injEq, Prod.mk.injEq] at h
                          obtain ⟨-, h4, -⟩ := h
                          rw [← h4]
                          exact dayNum_le _ _
                        · simp only [Bool.not_eq_true] at hc
                          simp [hc] at h
          · simp only [Bool.not_eq_true] at hw
            simp [hw] at h

theorem MONTH_MAP_mem {mon : List Char} {mnum : String}
    (h : MONTH_MAP mon = some mnum) : mnum ∈ monthCodes := by
  delta MONTH_MAP at h
  by_cases c1 : mon = ['J', 'a', 'n']
  · rw [if_pos c1] at h; injection h with e; rw [← e]; decide
  rw [if_neg c1] at h
  by_cases c2 : mon = ['F', 'e', 'b']
  · rw [if_pos c2] at h; injection h with e; rw [← e]; decide
  rw [if_neg c2] at h
  by_cases c3 : mon = ['M', 'a', 'r']
  · rw [if_pos c3] at h; injection h with e; rw [← e]; decide
  rw [if_neg c3] at h
  by_cases c4 : mon = ['A', 'p', 'r']
  · rw [if_pos c4] at h; injection h with e; rw [← e]; decide
  rw [if_neg c4] at h
  by_cases c5 : mon = ['M', 'a', 'y']
  · rw [if_pos c5] at h; injection h with e; rw [← e]; decide
  rw [if_neg c5] at h
  by_cases c6 : mon = ['J', 'u', 'n']
  · rw [if_pos c6] at h; injection h with e; rw [← e]; decide
  rw [if_neg c6] at h
  by_cases c7 : mon = ['J', 'u', 'l']
  · rw [if_pos c7] at h; injection h with e; rw [← e]; decide
  rw [if_neg c7] at h
  by_cases c8 : mon = ['A', 'u', 'g']
  · rw [if_pos c8] at h; injection h with e; rw [← e]; decide
  rw [if_neg c8] at h
  by_cases c9 : mon = ['S', 'e', 'p']
  · rw [if_pos c9] at h; injection h with e; rw [← e]; decide
  rw [if_neg c9] at h
  by_cases c10 : mon = ['O', 'c', 't']
  · rw [if_pos c10] at h; injection h with e; rw [← e]; decide
  rw [if_neg c10] at h
  by_cases c11 : mon = ['N', 'o', 'v']
  · rw [if_pos c11] at h; injection h with e; rw [← e]; decide
  rw [if_neg c11] at h
  by_cases c12 : mon = ['D', 'e', 'c']
  · rw [if_pos c12] at h; injection h with e; rw [← e]; decide
  rw [if_neg c12] at h
  exact absurd h (by simp)

theorem headerDate_shape {b : Int} {l : List Char} {dd : String}
    (h : headerDate b l = some dd) :
    ∃ y mnum d, dd = fmtDate y mnum d ∧ mnum ∈ monthCodes ∧ d ≤ 99 := by
  unfold headerDate resolveHeader at h
  cases hdm : dateMatch l with
  | none => rw [hdm] at h; exact absurd h (by simp)
  | some g =>
    obtain ⟨mon, d, yr⟩ := g
    rw [hdm] at h
    cases hmp : MONTH_MAP mon with
    | none => simp [hmp] at h
    | some mnum =>
      simp only [hmp, Option.map_some] at h
      injection h with h2
      exact ⟨inferYear b mnum yr, mnum, d, h2.symm, MONTH_MAP_mem hmp, dateMatch_day_le hdm⟩

/-! ### Invariants of the line loop -/

theorem lineStep_fst (season : String) (b : Int) (st : Option String × Option Int)
    (l : List Char) :
    (lineStep season b st l).1.1 =
      match headerDate b l with
      | some d => some d
      | none => st.1 := by
  cases hdm : dateMatch l with
  | some g =>
    obtain ⟨mon, d, yr⟩ := g
    cases hmp : MONTH_MAP mon with
    | none => rw [lineStep_badmonth hdm hmp, headerDate_of_badmonth hdm hmp]
    | some mnum => rw [lineStep_date hdm hmp, headerDate_of_month hdm hmp]
  | none =>
    rw [headerDate_of_nodm hdm]
    cases hm2 : matchMP2 l with
    | none => rw [lineStep_other hdm hm2]
    | some g =>
      obtain ⟨h, a, hg, ag⟩ := g
      cases hst : st.1 with
      | none => rw [lineStep_nodate hdm hm2 hst, hst]
      | some d => rw [lineStep_emit hdm hm2 hst, hst]

theorem lineStep_snd {season : String} {b : Int} {st : Option String × Option Int}
    {l : List Char} {r : MatchRecord}
    (h : (lineStep season b st l).2 = some r) : st.1 = some r.date := by
  cases hdm : dateMatch l with
  | some g =>
    obtain ⟨mon, d, yr⟩ := g
    cases hmp : MONTH_MAP mon with
    | none => rw [lineStep_badmonth hdm hmp] at h; exact absurd h (by simp)
    | some mnum => rw [lineStep_date hdm hmp] at h; exact absurd h (by simp)
  | none =>
    cases hm2 : matchMP2 l with
    | none => rw [lineStep_other hdm hm2] at h; exact absurd h (by simp)
    | some g =>
      obtain ⟨hh, aa, hg, ag⟩ := g
      cases hst : st.1 with
      | none => rw [lineStep_nodate hdm hm2 hst] at h; exact absurd h (by simp)
      | some d =>
        rw [lineStep_emit hdm hm2 hst] at h
        simp only [Option.some.injEq] at h
        subst h
        rfl

theorem parseLines_nil (season : String) (b : Int) (st : Option String × Option Int) :
    parseLines season b st [] = [] := rfl

theorem parseLines_cons (season : String) (b : Int) (st : Option String × Option Int)
    (l : List Char) (ls : List (List Char)) :
    parseLines season b st (l :: ls) =
      (match (lineStep season b st l).2 with
       | some r => [r]
       | none => []) ++ parseLines season b (lineStep season b st l).1 ls := rfl

theorem stateAfter_nil (season : String) (b : Int) (st : Option String × Option Int) :
    stateAfter season b st [] = st := rfl

theorem stateAfter_cons (season : String) (b : Int) (st : Option String × Option Int)
    (l : List Char) (ls : List (List Char)) :
    stateAfter season b st (l :: ls) =
      stateAfter season b (lineStep season b st l).1 ls := rfl

theorem parseLines_append (season : String) (b : Int) (ls1 ls2 : List (List Char))
    (st : Option String × Option Int) :
    parseLines season b st (ls1 ++ ls2) =
      parseLines season b st ls1 ++
        parseLines season b (stateAfter season b st ls1) ls2 := by
  induction ls1 generalizing st with
  | nil => simp [parseLines_nil, stateAfter_nil]
  | cons l ls1 ih =>
    rw [List.cons_append, parseLines_cons, parseLines_cons, stateAfter_cons,
      ih (lineStep season b st l).1, List.append_assoc]

theorem stateAfter_fst (season : String) (b : Int) (ls : List (List Char))
    (st : Option String × Option Int) :
    (stateAfter season b st ls).1 =
      ls.foldl (fun cur l =>
        match headerDate b l with
        | some d => some d
        | none => cur) st.1 := by
  induction ls generalizing st with
  | nil => rfl
  | cons l ls ih =>
    rw [stateAfter_cons, List.foldl_cons, ih, lineStep_fst]

theorem stateAfter_lastDate (season : String) (b : Int) (ls : List (List Char)) :
    (stateAfter season b (none, none) ls).1 = lastDate b ls := by
  rw [stateAfter_fst]
  rfl

theorem lastDate_mem (b : Int) (ls : List (List Char)) (init : Option String) (d : String)
    (h : ls.foldl (fun cur l =>
        match headerDate b l with
        | some dd => some dd
        | none => cur) init = some d) :
    (∃ l ∈ ls, headerDate b l = some d) ∨ init = some d := by
  induction ls generalizing init with
  | nil => exact Or.inr h
  | cons l ls ih =>
    rw [List.foldl_cons] at h
    rcases ih _ h with h1 | h1
    · obtain ⟨l2, hl2, hd2⟩ := h1
      exact Or.inl ⟨l2, List.mem_cons_of_mem _ hl2, hd2⟩
    · cases hh : headerDate b l with
      | some dd =>
        rw [hh] at h1
        injection h1 with h2
        exact Or.inl ⟨l, List.mem_cons_self _ _, by rw [hh, h2]⟩
      | none =>
        rw [hh] at h1
        exact Or.inr h1

theorem parseLines_mem (season : String) (b : Int) (ls : List (List Char))
    (st : Option String × Option Int) (r : MatchRecord)
    (h : r ∈ parseLines season b st ls) :
    st.1 = some r.date ∨ ∃ l ∈ ls, headerDate b l = some r.date := by
  induction ls generalizing st with
  | nil => exact absurd h (by simp [parseLines_nil])
  | cons l ls ih =>
    rw [parseLines_cons] at h
    rcases List.mem_append.1 h with h1 | h1
    · cases hem : (lineStep season b st l).2 with
      | none => rw [hem] at h1; exact absurd h1 (by simp)
      | some r2 =>
        rw [hem] at h1
        simp only [List.mem_singleton] at h1
        subst h1
        exact Or.inl (lineStep_snd hem)
    · rcases ih _ h1 with h2 | h2
      · rw [lineStep_fst] at h2
        cases hh : headerDate b l with
        | some dd =>
          rw [hh] at h2
          exact Or.inr ⟨l, List.mem_cons_self _ _, by rw [hh]; exact h2⟩
        | none =>
          rw [hh] at h2
          exact Or.inl h2
      · obtain ⟨l2, hl2, hd2⟩ := h2
        exact Or.inr ⟨l2, List.mem_cons_of_mem _ hl2, hd2⟩

/-! ### Totality of the season-year extraction -/

theorem isDigitC_not_space {c : Char} (h : isDigitC c = true) : isPySpace c = false := by
  by_contra hns
  rw [Bool.not_eq_false] at hns
  simp only [isPySpace, Bool.or_eq_true, decide_eq_true_eq] at hns
  rcases hns with ((((((((((((((((((((((((((((rfl | rfl) | rfl) | rfl) | rfl) | rfl) | rfl) | rfl) | rfl) | rfl) | rfl) | rfl) | rfl) | rfl) | rfl) | rfl) | rfl) | rfl) | rfl) | rfl) | rfl) | rfl) | rfl) | rfl) | rfl) | rfl) | rfl) | rfl) | rfl) <;>
    exact absurd h (by decide)

theorem isDigitC_ne_dash {c : Char} (h : isDigitC c = true) : c ≠ '-' := by
  rintro rfl
  exact absurd h (by decide)

theorem isDigitC_ne_plus {c : Char} (h : isDigitC c = true) : c ≠ '+' := by
  rintro rfl
  exact absurd h (by decide)

theorem dropWhile_not_space {l : List Char} (h : ∀ c ∈ l, isPySpace c = false) :
    l.dropWhile isPySpace = l := by
  cases l with
  | nil => rfl
  | cons c r =>
    rw [List.dropWhile_cons, h c (List.mem_cons_self _ _)]
    simp

theorem stripChars_of_digits {l : List Char} (h : ∀ c ∈ l, isDigitC c = true) :
    stripChars l = l := by
  have hs : ∀ c ∈ l, isPySpace c = false := fun c hc => isDigitC_not_space (h c hc)
  unfold stripChars
  rw [dropWhile_not_space hs,
    dropWhile_not_space (fun c hc => hs c (List.mem_reverse.1 hc)), List.reverse_reverse]

theorem digitsU_isSome (l : List Char) : ∀ acc, (∀ c ∈ l, isDigitC c = true) →
    ∃ n, digitsU acc l = some n := by
  induction l with
  | nil => exact fun acc _ => ⟨acc, rfl⟩
  | cons c r ih =>
    intro acc h
    have hc := h c (List.mem_cons_self _ _)
    have step : digitsU acc (c :: r) = digitsU (10 * acc + digitVal c) r := by
      cases r with
      | nil => simp [digitsU, hc]
      | cons d r2 => simp [digitsU, hc]
    rw [step]
    exact ih _ (fun d hd => h d (List.mem_cons_of_mem _ hd))

theorem pyInt_digits {l : List Char} (hne : l ≠ []) (h : ∀ c ∈ l, isDigitC c = true) :
    ∃ n, pyInt l = some n := by
  cases l with
  | nil => exact absurd rfl hne
  | cons c r =>
    have hc := h c (List.mem_cons_self _ _)
    have hstrip : stripChars (c :: r) = c :: r := stripChars_of_digits h
    unfold pyInt
    simp only [hstrip]
    rw [if_neg (isDigitC_ne_plus hc), if_neg (isDigitC_ne_dash hc)]
    simp only [pyIntDigits, hc, if_true]
    obtain ⟨n, hn⟩ := digitsU_isSome r (digitVal c) (fun d hd => h d (List.mem_cons_of_mem _ hd))
    exact ⟨Int.ofNat n, by rw [hn]; rfl⟩

theorem takeWhile_digits_dash {ds rest : List Char} (h : ∀ c ∈ ds, isDigitC c = true) :
    (ds ++ '-' :: rest).takeWhile (fun c => !(c = '-')) = ds := by
  induction ds with
  | nil => simp [List.takeWhile]
  | cons c r ih =>
    have hc : (!(c = '-')) = true := by
      simp [isDigitC_ne_dash (h c (List.mem_cons_self _ _))]
    simp only [List.cons_append, List.takeWhile_cons, hc, if_true]
    exact congrArg (c :: ·) (ih (fun d hd => h d (List.mem_cons_of_mem _ hd)))

theorem seasonBase_isSome {season : String} {ds rest : List Char}
    (hs : season.data = ds ++ '-' :: rest) (hne : ds ≠ [])
    (hd : ∀ c ∈ ds, isDigitC c = true) : ∃ b, seasonBase season = some b := by
  unfold seasonBase
  rw [hs, takeWhile_digits_dash hd]
  exact pyInt_digits hne hd

/-! ### Country-code suffixes of recognized teams -/

theorem scoreTail_eq {g1 g2 s h a : List Char} {hg ag : Nat}
    (hsc : scoreTail g1 g2 s = some (h, a, hg, ag)) : h = g1 ∧ a = g2 := by
  unfold scoreTail at hsc
  cases h1 : spacesPlus s with
  | none => simp [h1] at hsc
  | some r =>
    simp only [h1] at hsc
    cases h2 : r.takeWhile isDigitC with
    | nil => simp [h2] at hsc
    | cons d1 ds =>
      simp only [h2] at hsc
      cases h3 : r.dropWhile isDigitC with
      | nil => simp [h3] at hsc
      | cons c r2 =>
        simp only [h3] at hsc
        by_cases h4 : c = '-'
        · rw [if_pos h4] at hsc
          cases h5 : r2.takeWhile isDigitC with
          | nil => simp [h5] at hsc
          | cons e es =>
            simp only [h5] at hsc
            by_cases h6 : tailOK (r2.dropWhile isDigitC) = true
            · rw [if_pos h6] at hsc
              simp only [Option.some.injEq, Prod.mk.injEq] at hsc
              exact ⟨hsc.1.symm, hsc.2.1.symm⟩
            · rw [if_neg h6] at hsc
              exact absurd hsc (by simp)
        · rw [if_neg h4] at hsc
          exact absurd hsc (by simp)

theorem go2_eq {g1 : List Char} : ∀ (s racc : List Char) {h a : List Char} {hg ag : Nat},
    go2 g1 racc s = some (h, a, hg, ag) →
    h = g1 ∧ ∃ rc, revCC rc = true ∧ a = rc.reverse := by
  intro s
  induction s with
  | nil =>
    intro racc h a hg ag hgo
    simp only [go2] at hgo
    by_cases hr : revCC racc = true
    · rw [if_pos hr] at hgo
      obtain ⟨e1, e2⟩ := scoreTail_eq hgo
      exact ⟨e1, racc, hr, e2⟩
    · rw [if_neg hr] at hgo
      exact absurd hgo (by simp)
  | cons c r ih =>
    intro racc h a hg ag hgo
    simp only [go2] at hgo
    by_cases hr : revCC racc = true
    · rw [if_pos hr] at hgo
      cases hsc : scoreTail g1 racc.reverse (c :: r) with
      | some res =>
        rw [hsc] at hgo
        simp only [Option.some.injEq] at hgo
        subst hgo
        obtain ⟨e1, e2⟩ := scoreTail_eq hsc
        exact ⟨e1, racc, hr, e2⟩
      | none =>
        rw [hsc] at hgo
        simp only at hgo
        by_cases hn : c = '\n'
        · rw [if_pos hn] at hgo
          exact absurd hgo (by simp)
        · rw [if_neg hn] at hgo
          exact ih _ hgo
    · rw [if_neg hr] at hgo
      simp only at hgo
      by_cases hn : c = '\n'
      · rw [if_pos hn] at hgo
        exact absurd hgo (by simp)
      · rw [if_neg hn] at hgo
        exact ih _ hgo

theorem afterTeam1_eq {g1 s : List Char} {h a : List Char} {hg ag : Nat}
    (hat : afterTeam1 g1 s = some (h, a, hg, ag)) :
    h = g1 ∧ ∃ rc, revCC rc = true ∧ a = rc.reverse := by
  unfold afterTeam1 at hat
  cases h1 : spacesPlus s with
  | none => simp [h1] at hat
  | some r =>
    simp only [h1] at hat
    cases r with
    | nil => simp at hat
    | cons c r2 =>
      simp only at hat
      by_cases hv : c = 'v'
      · rw [if_pos hv] at hat
        cases h2 : spacesPlus r2 with
        | none => simp [h2] at hat
        | some r3 =>
          simp only [h2] at hat
          exact go2_eq _ _ hat
      · rw [if_neg hv] at hat
        exact absurd hat (by simp)

theorem go1_eq : ∀ (s racc : List Char) {h a : List Char} {hg ag : Nat},
    go1 racc s = some (h, a, hg, ag) →
    (∃ rc, revCC rc = true ∧ h = rc.reverse) ∧ ∃ rc, revCC rc = true ∧ a = rc.reverse := by
  intro s
  induction s with
  | nil =>
    intro racc h a hg ag hgo
    simp only [go1] at hgo
    by_cases hr : revCC racc = true
    · rw [if_pos hr] at hgo
      obtain ⟨e1, e2⟩ := afterTeam1_eq hgo
      exact ⟨⟨racc, hr, e1⟩, e2⟩
    · rw [if_neg hr] at hgo
      exact absurd hgo (by simp)
  | cons c r ih =>
    intro racc h a hg ag hgo
    simp only [go1] at hgo
    by_cases hr : revCC racc = true
    · rw [if_pos hr] at hgo
      cases hat : afterTeam1 racc.reverse (c :: r) with
      | some res =>
        rw [hat] at hgo
        simp only [Option.some.injEq] at hgo
        subst hgo
        obtain ⟨e1, e2⟩ := afterTeam1_eq hat
        exact ⟨⟨racc, hr, e1⟩, e2⟩
      | none =>
        rw [hat] at hgo
        simp only at hgo
        by_cases hn : c = '\n'
        · rw [if_pos hn] at hgo
          exact absurd hgo (by simp)
        · rw [if_neg hn] at hgo
          exact ih _ hgo
    · rw [if_neg hr] at hgo
      simp only at hgo
      by_cases hn : c = '\n'
      · rw [if_pos hn] at hgo
        exact absurd hgo (by simp)
      · rw [if_neg hn] at hgo
        exact ih _ hgo

theorem matchMP2_cc {l h a : List Char} {hg ag : Nat}
    (hm : matchMP2 l = some (h, a, hg, ag)) : endsCC h = true ∧ endsCC a = true := by
  unfold matchMP2 at hm
  cases h1 : spacesPlus l with
  | none => simp [h1] at hm
  | some s1 =>
    simp only [h1] at hm
    cases h2 : timeTok s1 with
    | some s2 =>
      rw [h2] at hm
      obtain ⟨⟨r1, hr1, he1⟩, ⟨r2, hr2, he2⟩⟩ := go1_eq _ _ hm
      constructor
      · rw [endsCC, he1, List.reverse_reverse, hr1]
      · rw [endsCC, he2, List.reverse_reverse, hr2]
    | none =>
      rw [h2] at hm
      obtain ⟨⟨r1, hr1, he1⟩, ⟨r2, hr2, he2⟩⟩ := go1_eq _ _ hm
      constructor
      · rw [endsCC, he1, List.reverse_reverse, hr1]
      · rw [endsCC, he2, List.reverse_reverse, hr2]

theorem lastDate_some_mem {b : Int} {ls : List (List Char)} {d : String}
    (h : lastDate b ls = some d) : ∃ l ∈ ls, headerDate b l = some d := by
  rcases lastDate_mem b ls none d h with h1 | h1
  · exact h1
  · exact absurd h1 (by simp)

/-! ### The claims -/

/-- C1: every `MatchRecord` emitted by `parse_file` carries a date produced by
a recognized date-header line occurring earlier in the same text: a record
added while processing line `i` has the date of a recognized header among the
first `i` lines, and when no line of the text is a recognized header (in
particular, for a match line before any date header) no record is produced. -/
theorem claim1_dates_from_earlier_header :
    (∀ (season : String) (b : Int) (ls : List (List Char)) (i : Nat) (r : MatchRecord),
      r ∈ parseLines season b (none, none) (ls.take (i + 1)) →
      r ∈ parseLines season b (none, none) (ls.take i) ∨
        ∃ l ∈ ls.take i, headerDate b l = some r.date) ∧
    (∀ (season text : String) (b : Int) (rs : List MatchRecord),
      seasonBase season = some b → parse_file season text = some rs →
      (∀ l ∈ splitCh '\n' text.data, headerDate b l = none) → rs = []) := by
  constructor
  · intro season b ls i r hr
    rcases Nat.lt_or_ge i ls.length with hi | hi
    · rw [List.take_succ] at hr
      cases hget : ls[i]? with
      | none =>
        rw [hget] at hr
        simp only [Option.toList_none, List.append_nil] at hr
        exact Or.inl hr
      | some li =>
        rw [hget] at hr
        simp only [Option.toList_some] at hr
        rw [parseLines_append] at hr
        rcases List.mem_append.1 hr with h1 | h1
        · exact Or.inl h1
        · right
          rw [parseLines_cons, parseLines_nil, List.append_nil] at h1
          cases hem : (lineStep season b (stateAfter season b (none, none) (ls.take i)) li).2 with
          | none => rw [hem] at h1; exact absurd h1 (by simp)
          | some r2 =>
            rw [hem] at h1
            simp only [List.mem_singleton] at h1
            subst h1
            have hst := lineStep_snd hem
            rw [stateAfter_lastDate] at hst
            exact lastDate_some_mem hst
    · have h1 : ls.take (i + 1) = ls.take i := by
        rw [List.take_of_length_le hi, List.take_of_length_le (le_trans hi (Nat.le_succ i))]
      rw [h1] at hr
      exact Or.inl hr
  · intro season text b rs hb hp hnone
    simp only [parse_file, hb] at hp
    injection hp with hp
    rw [List.eq_nil_iff_forall_not_mem]
    intro r hr
    rw [← hp] at hr
    rcases parseLines_mem _ _ _ _ _ hr with h1 | h1
    · exact absurd h1 (by simp)
    · obtain ⟨l, hl, hd⟩ := h1
      rw [hnone l hl] at hd
      exact absurd hd (by simp)

theorem claim1_witness :
    ({ season := "2024-25", date := "2024-09-17", home_team := "A (AAA)",
       away_team := "B (BBB)", home_goals := 2, away_goals := 0 : MatchRecord } ∈
        parseLines "2024-25" 2024 (none, none)
          (["  Tue Sep/17 2024".data, "  1.00  A (AAA) v B (BBB)  2-0".data].take 1) ∨
      ∃ l ∈ ["  Tue Sep/17 2024".data, "  1.00  A (AAA) v B (BBB)  2-0".data].take 1,
        headerDate 2024 l = some "2024-09-17") ∧
    ([] : List MatchRecord) = [] :=
  ⟨claim1_dates_from_earlier_header.1 "2024-25" 2024
      ["  Tue Sep/17 2024".data, "  1.00  A (AAA) v B (BBB)  2-0".data] 1
      { season := "2024-25", date := "2024-09-17", home_team := "A (AAA)",
        away_team := "B (BBB)", home_goals := 2, away_goals := 0 } (by decide),
   claim1_dates_from_earlier_header.2 "2024-25" "no headers" 2024 []
      (by decide) (by decide) (by decide)⟩

/-- C2: for a recognized date header without an explicit year the resolved
year is `base_year` for months numbered 7 through 12 and `base_year + 1` for
months numbered 1 through 6, while an explicit four-digit year is used
regardless of the month; concretely, with base year 2024 a `Sep` header
resolves to 2024 and a `Mar` header to 2025. -/
theorem claim2_year_inference :
    (∀ (b : Int) (mon : List Char) (mnum : String), MONTH_MAP mon = some mnum →
      (7 ≤ monthInt mnum → inferYear b mnum none = b) ∧
      (monthInt mnum ≤ 6 → inferYear b mnum none = b + 1) ∧
      (∀ ey : Nat, inferYear b mnum (some ey) = Int.ofNat ey)) ∧
    resolveHeader 2024 "  Tue Sep/17".data = some ("2024-09-17", 2024) ∧
    resolveHeader 2024 "  Wed Mar/5".data = some ("2025-03-05", 2025) := by
  refine ⟨?_, by decide, by decide⟩
  intro b mon mnum hmp
  refine ⟨fun h7 => ?_, fun h6 => ?_, fun ey => rfl⟩
  · show (if 7 ≤ monthInt mnum then b else b + 1) = b
    rw [if_pos h7]
  · show (if 7 ≤ monthInt mnum then b else b + 1) = b + 1
    rw [if_neg (by omega)]

theorem claim2_witness :
    (7 ≤ monthInt "09" ∧ inferYear 2024 "09" none = 2024) ∧
    (monthInt "03" ≤ 6 ∧ inferYear 2024 "03" none = 2025) ∧
    inferYear 2024 "09" (some 1999) = 1999 :=
  ⟨⟨by decide, (claim2_year_inference.1 2024 ['S', 'e', 'p'] "09" (by decide)).1 (by decide)⟩,
   ⟨by decide, ((claim2_year_inference.1 2024 ['M', 'a', 'r'] "03" (by decide)).2).1 (by decide)⟩,
   ((claim2_year_inference.1 2024 ['S', 'e', 'p'] "09" (by decide)).2).2 1999⟩

/-- C3: parsing season `"2024-25"` on the text holding the header line
`  Tue Sep/17 2024` followed by the match line
`  18.45  Real Madrid (ESP) v Borussia Dortmund (GER)  3-1 (1-0)` yields
exactly one record, with the expected season, date, teams and goals. -/
theorem claim3_end_to_end_example :
    parse_file "2024-25"
      "  Tue Sep/17 2024\n  18.45  Real Madrid (ESP) v Borussia Dortmund (GER)  3-1 (1-0)" =
      some [{ season := "2024-25", date := "2024-09-17", home_team := "Real Madrid (ESP)",
              away_team := "Borussia Dortmund (GER)", home_goals := 3, away_goals := 1 }] := by
  decide

/-- C4, corrected: the day number of a header is copied into the emitted date
without being checked against the calendar, so every emitted date has the
shape `year-month-day` with a recognized month code and a day below 100, but
need not be a valid calendar date (see the counterexample). -/
theorem claim4_amended_date_shape :
    ∀ (season text : String) (b : Int) (rs : List MatchRecord),
      seasonBase season = some b → parse_file season text = some rs →
      ∀ r ∈ rs, ∃ y mnum d, r.date = fmtDate y mnum d ∧ mnum ∈ monthCodes ∧ d ≤ 99 := by
  intro season text b rs hb hp r hr
  simp only [parse_file, hb] at hp
  injection hp with hp
  rw [← hp] at hr
  rcases parseLines_mem _ _ _ _ _ hr with h1 | h1
  · exact absurd h1 (by simp)
  · obtain ⟨l, _, hl⟩ := h1
    exact headerDate_shape hl

theorem claim4_witness :
    ∃ y mnum d, ("2025-02-30" : String) = fmtDate y mnum d ∧ mnum ∈ monthCodes ∧ d ≤ 99 :=
  claim4_amended_date_shape "2024-25" "  Wed Feb/30 2025\n  1.00  A (AAA) v B (BBB)  2-0" 2024
    [{ season := "2024-25", date := "2025-02-30", home_team := "A (AAA)",
       away_team := "B (BBB)", home_goals := 2, away_goals := 0 }]
    (by decide) (by decide)
    { season := "2024-25", date := "2025-02-30", home_team := "A (AAA)",
      away_team := "B (BBB)", home_goals := 2, away_goals := 0 }
    (by decide)

/-- C4 counterexample: the header `  Wed Feb/30 2025` is accepted and the
following match line is emitted with date `2025-02-30`, which is not a valid
calendar date (February 2025 has 28 days). -/
theorem claim4_counterexample :
    parse_file "2024-25" "  Wed Feb/30 2025\n  1.00  A (AAA) v B (BBB)  2-0" =
      some [{ season := "2024-25", date := "2025-02-30", home_team := "A (AAA)",
              away_team := "B (BBB)", home_goals := 2, away_goals := 0 }] ∧
    specValidCalendarDate "2025-02-30" = false :=
  ⟨by decide, by decide⟩

/-- C5, corrected: each emitted record's date equals the date resolved by the
nearest preceding recognized date-header line (`lastDate` of the preceding
lines), and a match line with no preceding recognized header emits nothing;
no monotonicity across headers is enforced (see the counterexample). -/
theorem claim5_amended_nearest_header :
    ∀ (season : String) (b : Int) (pre : List (List Char)) (l h a : List Char)
      (hg ag : Nat),
      dateMatch l = none → matchMP2 l = some (h, a, hg, ag) →
      parseLines season b (none, none) (pre ++ [l]) =
        parseLines season b (none, none) pre ++
          (match lastDate b pre with
           | some d => [{ season := season, date := d, home_team := stripStr h,
                          away_team := stripStr a, home_goals := hg, away_goals := ag }]
           | none => []) := by
  intro season b pre l h a hg ag hdm hm2
  rw [parseLines_append]
  congr 1
  have hst := stateAfter_lastDate season b pre
  rw [parseLines_cons, parseLines_nil, List.append_nil]
  cases hld : lastDate b pre with
  | some d =>
    rw [hld] at hst
    rw [lineStep_emit hdm hm2 hst]
  | none =>
    rw [hld] at hst
    rw [lineStep_nodate hdm hm2 hst]

theorem claim5_witness :
    parseLines "2024-25" 2024 (none, none)
        (["  Tue Sep/17 2024".data] ++ ["  1.00  A (AAA) v B (BBB)  2-0".data]) =
      parseLines "2024-25" 2024 (none, none) ["  Tue Sep/17 2024".data] ++
        (match lastDate 2024 ["  Tue Sep/17 2024".data] with
         | some d => [{ season := "2024-25", date := d,
                        home_team := stripStr "A (AAA)".data,
                        away_team := stripStr "B (BBB)".data,
                        home_goals := 2, away_goals := 0 }]
         | none => []) :=
  claim5_amended_nearest_header "2024-25" 2024 ["  Tue Sep/17 2024".data]
    "  1.00  A (AAA) v B (BBB)  2-0".data "A (AAA)".data "B (BBB)".data 2 0
    (by decide) (by decide)

/-- C5 counterexample: with the headers out of order (`Sep/18` before
`Sep/17`) the two records are emitted with dates `2024-09-18` then
`2024-09-17` in output order, which is not non-decreasing; the first record's
date is also not smaller than the date of the next header line. -/
theorem claim5_counterexample :
    (parse_file "2024-25"
        ("  Tue Sep/18 2024\n  1.00  A (AAA) v B (BBB)  2-0\n" ++
         "  Tue Sep/17 2024\n  1.00  C (CCC) v D (DDD)  1-0")).map
      (fun rs => rs.map MatchRecord.date) = some ["2024-09-18", "2024-09-17"] ∧
    specDateLE "2024-09-18" "2024-09-17" = false :=
  ⟨by decide, by decide⟩

/-- C6: for every season string that is a nonempty run of digits followed by
a `'-'` separator, `parse_file` is total on every text: the embedded model,
whose `none` value stands for the only exception the Python core can raise
(`int` on the season prefix), always returns a result list. -/
theorem claim6_total :
    ∀ (season text : String) (ds rest : List Char),
      season.data = ds ++ '-' :: rest → ds ≠ [] → (∀ c ∈ ds, isDigitC c = true) →
      (parse_file season text).isSome = true := by
  intro season text ds rest hs hne hd
  obtain ⟨b, hb⟩ := seasonBase_isSome hs hne hd
  simp [parse_file, hb]

theorem claim6_witness :
    (parse_file "2024-25" "\n   \nGroup A  1. Foo  3 3 0 0  9").isSome = true :=
  claim6_total "2024-25" "\n   \nGroup A  1. Foo  3 3 0 0  9"
    ['2', '0', '2', '4'] ['2', '5'] (by decide) (by decide) (by decide)

/-- C7: a line is recognized as a match result only if both team fields end
in a parenthesized three-uppercase-letter country code; a line with a `v`
separator and a score but no country codes produces no record even when a
date is active. -/
theorem claim7_country_code_required :
    (∀ (l h a : List Char) (hg ag : Nat), matchMP2 l = some (h, a, hg, ag) →
      endsCC h = true ∧ endsCC a = true) ∧
    parse_file "2024-25" "  Tue Sep/17 2024\n  18.45  Arsenal v Chelsea  3-1" = some [] :=
  ⟨fun _ _ _ _ _ hm => matchMP2_cc hm, by decide⟩

theorem claim7_witness :
    endsCC "Real Madrid (ESP)".data = true ∧ endsCC "Borussia Dortmund (GER)".data = true :=
  claim7_country_code_required.1
    "  18.45  Real Madrid (ESP) v Borussia Dortmund (GER)  3-1 (1-0)".data
    "Real Madrid (ESP)".data "Borussia Dortmund (GER)".data 3 1 (by decide)

/-- C8: a line matching the date-header shape whose month token is not one of
the twelve recognized abbreviations produces no record and leaves the whole
parse state (`current_date` and `current_year`) unchanged. -/
theorem claim8_unknown_month_skipped :
    ∀ (season : String) (b : Int) (st : Option String × Option Int) (l mon : List Char)
      (d : Nat) (yr : Option Nat),
      dateMatch l = some (mon, d, yr) → MONTH_MAP mon = none →
      lineStep season b st l = (st, none) := by
  intro season b st l mon d yr hdm hmp
  exact lineStep_badmonth hdm hmp

theorem claim8_witness :
    lineStep "2024-25" 2024 (some "2024-09-09", some 2024) "  Tue Xyz/17".data =
      ((some "2024-09-09", some 2024), none) :=
  claim8_unknown_month_skipped "2024-25" 2024 (some "2024-09-09", some 2024)
    "  Tue Xyz/17".data ['X', 'y', 'z'] 17 none (by decide) (by decide)

/-- C9: both recognizers require at least one leading whitespace character: a
line beginning with a non-whitespace character at column 0 is matched by
neither pattern, produces no record and leaves the state unchanged. -/
theorem claim9_leading_whitespace_required :
    ∀ (season : String) (b : Int) (st : Option String × Option Int) (c : Char)
      (r : List Char), isPySpace c = false →
      dateMatch (c :: r) = none ∧ matchMP2 (c :: r) = none ∧
        lineStep season b st (c :: r) = (st, none) := by
  intro season b st c r hc
  have hsp : spacesPlus (c :: r) = none := by simp [spacesPlus, hc]
  have h1 : dateMatch (c :: r) = none := by simp [dateMatch, hsp]
  have h2 : matchMP2 (c :: r) = none := by simp [matchMP2, hsp]
  exact ⟨h1, h2, lineStep_other h1 h2⟩

theorem claim9_witness :
    dateMatch "Tue Sep/17 2024".data = none ∧
    matchMP2 "Tue Sep/17 2024".data = none ∧
    lineStep "2024-25" 2024 (none, none) "Tue Sep/17 2024".data = ((none, none), none) :=
  claim9_leading_whitespace_required "2024-25" 2024 (none, none) 'T'
    "ue Sep/17 2024".data (by decide)

/-- C10: classification tests the date pattern first: any line the date
pattern matches emits no record, even when the match pattern would also
match; concretely a line matched by both patterns only updates the date, and
a date-shaped line with an unrecognized month is not re-tested against the
match pattern. -/
theorem claim10_date_priority :
    (∀ (season : String) (b : Int) (st : Option String × Option Int) (l : List Char)
      (g : List Char × Nat × Option Nat), dateMatch l = some g →
      (lineStep season b st l).2 = none) ∧
    (dateMatch "  Tue Sep/17 Foo (ESP) v Bar (GER) 3-1".data ≠ none ∧
     matchMP2 "  Tue Sep/17 Foo (ESP) v Bar (GER) 3-1".data ≠ none ∧
     lineStep "2024-25" 2024 (none, none) "  Tue Sep/17 Foo (ESP) v Bar (GER) 3-1".data =
       ((some "2024-09-17", some 2024), none)) ∧
    (dateMatch "  Tue Xyz/17 Foo (ESP) v Bar (GER) 3-1".data ≠ none ∧
     matchMP2 "  Tue Xyz/17 Foo (ESP) v Bar (GER) 3-1".data ≠ none ∧
     lineStep "2024-25" 2024 (none, none) "  Tue Xyz/17 Foo (ESP) v Bar (GER) 3-1".data =
       ((none, none), none)) := by
  refine ⟨?_, by decide, by decide⟩
  intro season b st l g hdm
  obtain ⟨mon, d, yr⟩ := g
  cases hmp : MONTH_MAP mon with
  | none => rw [lineStep_badmonth hdm hmp]
  | some mnum => rw [lineStep_date hdm hmp]

theorem claim10_witness :
    (lineStep "2024-25" 2024 (none, none)
      "  Tue Sep/17 Foo (ESP) v Bar (GER) 3-1".data).2 = none :=
  claim10_date_priority.1 "2024-25" 2024 (none, none)
    "  Tue Sep/17 Foo (ESP) v Bar (GER) 3-1".data
    (['S', 'e', 'p'], 17, none) (by decide)
